import Mathlib

/-
  Verification development for the streaming aggregation and alerting engine
  of the RegionalBankDataPlatform repository (src/pipelines/streaming_etl.py).

  The source expresses the engine declaratively over a distributed dataframe
  API: windowing via window("transaction_date", "5 minutes", "1 minute"),
  bounded lateness via withWatermark("transaction_date", "10 minutes"),
  aggregates count / sum / avg / max / min, a stateless alert stream built by
  filter + first-match case analysis, and append-mode emission of finalized
  windows.  The configuration (window length, slide, watermark delay, alert
  thresholds, normalization, filter and case conditions) is embedded here
  directly from the source; the engine semantics those configurations invoke
  (watermark tracking, window assignment, per-window folding, finalization
  and eviction) are not part of the repository and are modelled from the
  spec, which describes them explicitly.
-/

namespace RegionalBank

/-- Monetary amounts.  The source stores amounts as doubles; all amounts and
thresholds appearing in the pipeline's logic are exact decimals, embedded as
rationals. -/
abbrev Amount := ℚ

/-- Alert thresholds, from RegionalBankStreamingETL.__init__ (streaming_etl.py
lines 59-64). -/
structure AlertThresholds where
  high_value_transaction : Amount
  suspicious_frequency : Amount
  large_remittance : Amount
  failed_transaction_rate : Amount
deriving DecidableEq

/-- Threshold values from the source: 100000, 10, 50000, 0.05. -/
def alert_thresholds : AlertThresholds :=
  { high_value_transaction := 100000
    suspicious_frequency := 10
    large_remittance := 50000
    failed_transaction_rate := 5 / 100 }

/-! ### String normalization (apply_streaming_transformations)

The source applies upper(trim(col)) to code fields.  The engine's trim
removes leading and trailing space characters (U+0020) only; upper
upper-cases letters (embedded for the ASCII range via Char.toUpper). -/

/-- True exactly on the space character, the character removed by the
engine's trim. -/
def isSpaceChar (c : Char) : Bool := c = ' '

/-- Remove leading spaces. -/
def trimLeft (cs : List Char) : List Char := cs.dropWhile isSpaceChar

/-- Remove leading and trailing spaces, as the engine's trim does. -/
def sparkTrim (cs : List Char) : List Char :=
  ((cs.dropWhile isSpaceChar).reverse.dropWhile isSpaceChar).reverse

/-- Normalization of a code field: trim then upper-case, embedding
upper(trim(col)) from streaming_etl.py lines 124-126. -/
def normCode (s : String) : String :=
  ⟨(sparkTrim s.data).map Char.toUpper⟩

/-! ### Event records -/

/-- Transaction event, per get_transaction_schema (streaming_etl.py lines
66-81); only the fields the streaming logic reads are carried.  Nullable
fields of the schema are Options; transaction_date is an event timestamp in
whole seconds since the epoch. -/
structure TxEvent where
  transaction_id : String
  country_code : String
  transaction_type : String
  sector : String
  amount : Amount
  status : Option String
  transaction_date : ℕ
deriving DecidableEq

/-- Remittance event, per get_remittance_schema (streaming_etl.py lines
83-98). -/
structure RemEvent where
  remittance_id : String
  sender_country : String
  recipient_country : String
  amount : Amount
  exchange_rate : Option Amount
  fees : Option Amount
  status : Option String
  transaction_date : ℕ
deriving DecidableEq

/-- Risk indicator from apply_streaming_transformations (lines 135-137):
when(amount > thresholds.high_value_transaction, True).otherwise(False). -/
def high_value_flag (e : TxEvent) : Bool :=
  decide (alert_thresholds.high_value_transaction < e.amount)

/-- Risk indicator from apply_streaming_transformations (lines 150-152):
when(amount > thresholds.large_remittance, True).otherwise(False). -/
def large_remittance_flag (e : RemEvent) : Bool :=
  decide (alert_thresholds.large_remittance < e.amount)

/-- Normalization step of apply_streaming_transformations for transactions
(lines 124-126): country_code, transaction_type and sector become
upper(trim(field)). -/
def normalizeTx (e : TxEvent) : TxEvent :=
  { e with
    country_code := normCode e.country_code
    transaction_type := normCode e.transaction_type
    sector := normCode e.sector }

/-! ### Alert evaluator (create_alert_stream) -/

/-- An emitted alert record: the source event id, the alert_type column and
the fields echoed into the alert row. -/
structure AlertRec where
  source_id : String
  amount : Amount
  alert_type : String
deriving DecidableEq

/-- Alert evaluation for a transaction event, embedding the filter and the
when-chain of create_alert_stream (streaming_etl.py lines 224-242): a row is
admitted when high_value_flag, status FAILED or negative amount holds, and
its alert_type is the first matching branch, with fallback OTHER. -/
def txAlert (e : TxEvent) : Option AlertRec :=
  if high_value_flag e || (e.status == some "FAILED") || decide (e.amount < 0) then
    some { source_id := e.transaction_id
           amount := e.amount
           alert_type :=
             if high_value_flag e then "HIGH_VALUE_TRANSACTION"
             else if e.status == some "FAILED" then "FAILED_TRANSACTION"
             else if e.amount < 0 then "NEGATIVE_AMOUNT"
             else "OTHER" }
  else none

/-- Alert evaluation for a remittance event, embedding the filter and the
when-chain of create_alert_stream (streaming_etl.py lines 244-264). -/
def remAlert (e : RemEvent) : Option AlertRec :=
  if large_remittance_flag e || (e.status == some "FAILED") || decide (e.amount < 0)
      || e.exchange_rate.isNone then
    some { source_id := e.remittance_id
           amount := e.amount
           alert_type :=
             if large_remittance_flag e then "LARGE_REMITTANCE"
             else if e.status == some "FAILED" then "FAILED_REMITTANCE"
             else if e.amount < 0 then "NEGATIVE_AMOUNT"
             else if e.exchange_rate.isNone then "MISSING_EXCHANGE_RATE"
             else "OTHER" }
  else none

/-- Alert stream of a batch of transaction events: the per-event evaluation,
collected (the stateless path of the data flow, independent of the windowed
state). -/
def txAlertStream (es : List TxEvent) : List AlertRec := es.filterMap txAlert

/-- Abstract alert types of the spec's rule set. -/
inductive AlertTy where
  | HIGH_VALUE
  | LARGE_REMITTANCE
  | FAILED_EVENT
  | NEGATIVE_AMOUNT
  | MISSING_EXCHANGE_RATE
  | OTHER
deriving DecidableEq

/-- Abstraction of the transaction alert_type strings emitted by the source
into the spec's alert names. -/
def abstractTxTy (t : String) : AlertTy :=
  if t = "HIGH_VALUE_TRANSACTION" then .HIGH_VALUE
  else if t = "FAILED_TRANSACTION" then .FAILED_EVENT
  else if t = "NEGATIVE_AMOUNT" then .NEGATIVE_AMOUNT
  else .OTHER

/-- Abstraction of the remittance alert_type strings emitted by the source
into the spec's alert names. -/
def abstractRemTy (t : String) : AlertTy :=
  if t = "LARGE_REMITTANCE" then .LARGE_REMITTANCE
  else if t = "FAILED_REMITTANCE" then .FAILED_EVENT
  else if t = "NEGATIVE_AMOUNT" then .NEGATIVE_AMOUNT
  else if t = "MISSING_EXCHANGE_RATE" then .MISSING_EXCHANGE_RATE
  else .OTHER

/-- Modelled from the spec: the Alert Evaluator's rule set for transactions
as written in section 4.5 (pure function, first match wins): amount above
the high-value threshold, then status Failed, then negative amount.  Stated
from the spec's words to be compared with the evaluator embedded from the
source. -/
def specEvaluateTx (e : TxEvent) : Option AlertTy :=
  if alert_thresholds.high_value_transaction < e.amount then some .HIGH_VALUE
  else if e.status = some "FAILED" then some .FAILED_EVENT
  else if e.amount < 0 then some .NEGATIVE_AMOUNT
  else none

/-- Modelled from the spec: the Alert Evaluator's rule set for remittances
as written in section 4.5, including the remittance-only missing
exchange-rate rule. -/
def specEvaluateRem (e : RemEvent) : Option AlertTy :=
  if alert_thresholds.large_remittance < e.amount then some .LARGE_REMITTANCE
  else if e.status = some "FAILED" then some .FAILED_EVENT
  else if e.amount < 0 then some .NEGATIVE_AMOUNT
  else if e.exchange_rate = none then some .MISSING_EXCHANGE_RATE
  else none

/-! ### Sliding-window assignment

Modelled from the spec (section 4.3) and the configuration in
create_real_time_analytics (streaming_etl.py line 171):
window("transaction_date", "5 minutes", "1 minute").  Window boundaries are
aligned to multiples of the slide since the epoch; an event belongs to every
window whose half-open interval contains its event time. -/

/-- Modelled from the spec: assignWindows(event_time, L, S) — the engine's
sliding-window assignment, which the source configures but does not
implement.  Candidate starts are the ceil(L/S) slide-aligned values at or
below the event time, filtered to those whose window still contains it.
Times are in whole seconds; the source's defaults are L = 300, S = 60. -/
def assignWindows (t L S : ℕ) : List ℕ :=
  (List.range ((L + S - 1) / S)).map (fun k => t / S * S - k * S)
    |>.filter (fun s => decide (t < s + L))

/-! ### Windowed aggregate state -/

/-- Per-window aggregate state: count, sum, min, max as configured in
create_real_time_analytics (streaming_etl.py lines 176-181); the average is
derived as sum / count at read time. -/
structure Agg where
  count : ℕ
  sum : Amount
  min : Amount
  max : Amount
deriving DecidableEq

/-- Aggregate of a single event's amount. -/
def initAgg (x : Amount) : Agg := ⟨1, x, x, x⟩

/-- Fold one event's amount into a window's running aggregate. -/
def foldAgg (a : Agg) (x : Amount) : Agg :=
  ⟨a.count + 1, a.sum + x, min a.min x, max a.max x⟩

/-- One accumulation step over an optional aggregate: the first event of a
window creates its state, later events fold in. -/
def aggStep (acc : Option Agg) (x : Amount) : Option Agg :=
  some (match acc with
        | none => initAgg x
        | some a => foldAgg a x)

/-- Aggregate of a window from the amounts folded into it, in arrival
order. -/
def windowAggregate (l : List Amount) : Option Agg := l.foldl aggStep none

/-! ### Pipeline state machine

Modelled from the spec (sections 4.2, 4.4, 4.6): the per-partition
watermark tracker, the accumulator's window mapping, the finalizer and the
dropped-late counter — the engine behavior that
withWatermark("transaction_date", "10 minutes") and append-mode output
configure in the source (streaming_etl.py lines 169-181 and 268-282).  The
source's defaults are allowed lateness 600 seconds, L = 300, S = 60. -/

/-- A window key: the window start together with the grouping columns
country_code and transaction_type (streaming_etl.py lines 170-174). -/
abbrev WKey := ℕ × String × String

/-- State of one partition's streaming pipeline. -/
structure PState where
  maxEventTime : ℕ
  windows : List (WKey × Agg)
  emitted : List (WKey × Agg)
  droppedLate : ℕ
deriving DecidableEq

/-- Initial pipeline state. -/
def initState : PState := ⟨0, [], [], 0⟩

/-- Modelled from the spec: currentWatermark() = max event time seen minus
the allowed lateness (section 4.2), truncated at zero before any event. -/
def watermark (lat : ℕ) (s : PState) : ℕ := s.maxEventTime - lat

/-- Keys of a window mapping. -/
def wkeys (ws : List (WKey × Agg)) : List WKey := ws.map Prod.fst

/-- Fold an amount into the mapping at a key: an existing entry is updated
in place, a missing key is appended with a fresh aggregate. -/
def upsert : List (WKey × Agg) → WKey → Amount → List (WKey × Agg)
  | [], k, x => [(k, initAgg x)]
  | (k', a) :: rest, k, x =>
      if k' = k then (k', foldAgg a x) :: rest else (k', a) :: upsert rest k x

/-- Lookup in the window mapping. -/
def lookupW : List (WKey × Agg) → WKey → Option Agg
  | [], _ => none
  | (k', a) :: rest, k => if k' = k then some a else lookupW rest k

/-- Fold one event into every window it belongs to. -/
def accumulate (L S : ℕ) (ws : List (WKey × Agg)) (e : TxEvent) :
    List (WKey × Agg) :=
  (assignWindows e.transaction_date L S).foldl
    (fun acc w => upsert acc (w, e.country_code, e.transaction_type) e.amount)
    ws

/-- Modelled from the spec: processing of one validated event (sections 4.2
and 4.3 with the late policy of section 3): an event below the watermark is
dropped from the stateful path and counted; otherwise it advances the
maximum event time and folds into its windows. -/
def processEvent (lat L S : ℕ) (s : PState) (e : TxEvent) : PState :=
  if e.transaction_date < watermark lat s then
    { s with droppedLate := s.droppedLate + 1 }
  else
    { s with
      maxEventTime := max s.maxEventTime e.transaction_date
      windows := accumulate L S s.windows e }

/-- Eligibility for finalization: window_end + allowedLateness is at or
below the current watermark (spec section 4.4); window_end = start + L. -/
def eligible (lat L : ℕ) (wm : ℕ) (kv : WKey × Agg) : Bool :=
  decide (kv.1.1 + L + lat ≤ wm)

/-- Modelled from the spec: one finalization pass (section 4.4) — every
eligible window is emitted to the sink log and removed from the mapping. -/
def finalizeStep (lat L : ℕ) (s : PState) : PState :=
  { s with
    windows := s.windows.filter (fun kv => !eligible lat L (watermark lat s) kv)
    emitted := s.emitted ++ s.windows.filter (eligible lat L (watermark lat s)) }

/-- One operation of the coordinator loop: process an event or run a
finalization tick. -/
inductive Op where
  | ev : TxEvent → Op
  | tick : Op
deriving DecidableEq

/-- One step of the coordinator loop. -/
def stepOp (lat L S : ℕ) (s : PState) : Op → PState
  | .ev e => processEvent lat L S s e
  | .tick => finalizeStep lat L s

/-- Run the coordinator loop over a list of operations from the initial
state. -/
def run (lat L S : ℕ) (ops : List Op) : PState :=
  ops.foldl (stepOp lat L S) initState

/-- Window keys an event is assigned to after normalization: the window
starts paired with the grouping columns. -/
def txWindowKeys (L S : ℕ) (e : TxEvent) : List WKey :=
  (assignWindows e.transaction_date L S).map
    (fun w => (w, e.country_code, e.transaction_type))

/-! ### Event validation

Modelled from the spec (section 4.1): the repository declares required
fields only through the schema passed to the stream reader
(get_transaction_schema, streaming_etl.py lines 66-98, non-nullable
transaction_id / transaction_type / amount / transaction_date) and parses
records in read_kinesis_stream (lines 100-117); the validate function
itself is engine behavior, modelled here from the spec's contract. -/

/-- A raw incoming record: every field is optionally present, carried as
uninterpreted text. -/
structure RawRecord where
  event_id : Option String
  event_type : Option String
  event_time : Option String
  amount : Option String
  status : Option String
  sector : Option String
  loan_id : Option String
  exchange_rate : Option String
deriving DecidableEq

/-- Rejection causes of the validator. -/
inductive RejectReason where
  | missingField : String → RejectReason
  | badTimestamp : RejectReason
  | badAmount : RejectReason
deriving DecidableEq

/-- A validated event: required fields parsed, optional fields passed
through untouched for downstream rule evaluation. -/
structure ValidEvent where
  event_id : String
  event_type : String
  event_time : ℕ
  amount : Amount
  status : Option String
  sector : Option String
  loan_id : Option String
  exchange_rate : Option String
deriving DecidableEq

/-- All characters are decimal digits. -/
def allDigits (cs : List Char) : Bool := cs.all Char.isDigit

/-- Numeric value of a digit string. -/
def digitsVal (cs : List Char) : ℕ :=
  cs.foldl (fun n c => n * 10 + (c.toNat - 48)) 0

/-- Parse an event timestamp: a nonempty digit string giving whole seconds
since the epoch. -/
def parseTimestampStr (cs : List Char) : Option ℕ :=
  if cs.isEmpty then none
  else if allDigits cs then some (digitsVal cs) else none

/-- Parse an unsigned decimal numeral, with an optional fractional part. -/
def parseUnsigned (cs : List Char) : Option Amount :=
  let ip := cs.takeWhile (fun c => c ≠ '.')
  let rest := cs.dropWhile (fun c => c ≠ '.')
  if ip.isEmpty || !allDigits ip then none
  else
    match rest with
    | [] => some ((digitsVal ip : ℤ) : Amount)
    | _ :: frac =>
        if frac.isEmpty || !allDigits frac then none
        else some (((digitsVal ip : ℤ) : Amount)
          + ((digitsVal frac : ℤ) : Amount) / ((10 : Amount) ^ frac.length))

/-- Parse a possibly negative decimal amount. -/
def parseAmountStr (cs : List Char) : Option Amount :=
  match cs with
  | '-' :: rest => (parseUnsigned rest).map (fun q => -q)
  | _ => parseUnsigned cs

/-- Modelled from the spec: validate(raw), rejecting exactly on a missing
required field (event_id, event_type, event_time, amount), an unparsable
event_time, or a non-numeric amount; everything else, negative amounts and
absent optional fields included, passes through. -/
def validate (r : RawRecord) : Except RejectReason ValidEvent :=
  match r.event_id with
  | none => .error (.missingField "event_id")
  | some eid =>
  match r.event_type with
  | none => .error (.missingField "event_type")
  | some ety =>
  match r.event_time with
  | none => .error (.missingField "event_time")
  | some ets =>
  match r.amount with
  | none => .error (.missingField "amount")
  | some ams =>
  match parseTimestampStr ets.data with
  | none => .error .badTimestamp
  | some t =>
  match parseAmountStr ams.data with
  | none => .error .badAmount
  | some a =>
      .ok { event_id := eid, event_type := ety, event_time := t, amount := a
            status := r.status, sector := r.sector, loan_id := r.loan_id
            exchange_rate := r.exchange_rate }

/-- True when validation accepted the record. -/
def validateOk (r : RawRecord) : Bool :=
  match validate r with
  | .ok _ => true
  | .error _ => false

/-! ### Concrete records used in the theorems below -/

/-- Remittance event of the boundary case: exchange_rate absent and amount
100. -/
def remNoRate : RemEvent :=
  { remittance_id := "r1", sender_country := "US", recipient_country := "MX"
    amount := 100, exchange_rate := none, fees := none
    status := some "COMPLETED", transaction_date := 1000 }

/-- Transaction event with a negative amount, used as concrete input. -/
def txNeg : TxEvent :=
  { transaction_id := "t0", country_code := "US", transaction_type := "PAYMENT"
    sector := "X", amount := -5, status := some "COMPLETED"
    transaction_date := 0 }

/-- First event of the three-event feed: amount 50. -/
def evA : TxEvent :=
  ⟨"t1", "US", "PAYMENT", "AGRICULTURE", 50, some "COMPLETED", 1000⟩

/-- Second event of the three-event feed: amount 150000. -/
def evB : TxEvent :=
  ⟨"t2", "US", "PAYMENT", "AGRICULTURE", 150000, some "COMPLETED", 1000⟩

/-- Third event of the three-event feed: amount -20. -/
def evC : TxEvent :=
  ⟨"t3", "US", "PAYMENT", "AGRICULTURE", -20, some "COMPLETED", 1000⟩

/-- Later event driving the watermark past the three-event feed's windows. -/
def evD : TxEvent :=
  ⟨"t9", "US", "PAYMENT", "AGRICULTURE", 7, some "COMPLETED", 5000⟩

/-- Raw record with a negative fractional amount and absent optional
fields. -/
def rawNeg : RawRecord :=
  { event_id := some "e1", event_type := some "Transaction"
    event_time := some "1000", amount := some "-20.5"
    status := none, sector := none, loan_id := none, exchange_rate := none }

/-! ### Relations and invariants used in the theorems below -/

/-- Two character lists differ only by letter case and by leading or
trailing characters satisfying p: each is some p-padding around a core, the
cores have no p-character at either edge, and the cores agree up to
upper-casing. -/
def OuterEquiv (p : Char → Bool) (s₁ s₂ : List Char) : Prop :=
  ∃ a₁ b₁ a₂ b₂ c₁ c₂ : List Char,
    a₁.all p = true ∧ b₁.all p = true ∧ a₂.all p = true ∧ b₂.all p = true ∧
    c₁.head?.all (fun h => !p h) = true ∧
    c₁.getLast?.all (fun h => !p h) = true ∧
    c₂.head?.all (fun h => !p h) = true ∧
    c₂.getLast?.all (fun h => !p h) = true ∧
    c₁.map Char.toUpper = c₂.map Char.toUpper ∧
    s₁ = a₁ ++ c₁ ++ b₁ ∧ s₂ = a₂ ++ c₂ ++ b₂

/-- Transaction events with a tab-padded and a bare country code: they
differ only by leading whitespace, but not by leading spaces. -/
def evTabCC : TxEvent :=
  ⟨"t1", "\tUS", "PAYMENT", "AGRICULTURE", 50, some "COMPLETED", 43410⟩

/-- The bare-country-code twin of evTabCC. -/
def evPlainCC : TxEvent :=
  ⟨"t1", "US", "PAYMENT", "AGRICULTURE", 50, some "COMPLETED", 43410⟩

/-- Transaction event with lower-cased, space-padded code fields. -/
def evLowerCC : TxEvent :=
  ⟨"t1", " us", "payment", "AGRICULTURE", 50, some "COMPLETED", 43410⟩

/-- Event agreeing with evLowerCC except for case and outer spaces of the
code fields. -/
def evUpperCC : TxEvent :=
  ⟨"t1", "US ", " PAYMENT", "AGRICULTURE", 50, some "COMPLETED", 43410⟩

/-- Reachability invariant of the pipeline state: window keys are unique,
emitted keys are unique, no emitted key is still in the mapping, and every
emitted key's window is closed under the current watermark. -/
def Inv (lat L : ℕ) (s : PState) : Prop :=
  (wkeys s.windows).Nodup ∧
  (wkeys s.emitted).Nodup ∧
  (∀ k ∈ wkeys s.emitted, k ∉ wkeys s.windows) ∧
  (∀ k ∈ wkeys s.emitted, k.1 + L + lat ≤ watermark lat s)

/-! ## Theorems -/

/-! ### Watermark monotonicity (C3) -/

/-- The maximum event time seen never decreases under any coordinator
step. -/
lemma maxEventTime_mono (lat L S : ℕ) (s : PState) (op : Op) :
    s.maxEventTime ≤ (stepOp lat L S s op).maxEventTime := by
  cases op with
  | ev e =>
      simp only [stepOp, processEvent]
      split
      · exact Nat.le_refl _
      · exact Nat.le_max_left _ _
  | tick => exact Nat.le_refl _

/-- C3. For every sequence of operations fed to a partition, the watermark
is monotonically non-decreasing: after processing one more operation (in
particular one more event, even one carrying an earlier event time than a
previously seen event), currentWatermark() is at least its previous
value. -/
theorem watermark_monotone (lat L S : ℕ) (ops : List Op) (op : Op) :
    watermark lat (run lat L S ops) ≤ watermark lat (run lat L S (ops ++ [op])) := by
  unfold run
  rw [List.foldl_append]
  exact Nat.sub_le_sub_right (maxEventTime_mono lat L S _ op) lat

/-! ### Window assignment (C4) -/

/-- Membership in the window list implies the window's interval still
contains the event time (the filter in assignWindows). -/
lemma assignWindows_mem_lt (t L S w : ℕ) (h : w ∈ assignWindows t L S) :
    t < w + L := by
  unfold assignWindows at h
  have := (List.mem_filter.mp h).2
  exact of_decide_eq_true this

/-- C4 counterexample. With L = 5 minutes and S = 1 minute, the event at
12:03:30 (second 43410 of the day) is assigned the window starting at
11:59:00 (second 43140) as well, so the claimed exact window set
{12:00, 12:01, 12:02, 12:03} is incomplete: the full assignment has five
windows, 11:59 through 12:03. -/
theorem assignWindows_c4_counterexample :
    assignWindows 43410 300 60 = [43380, 43320, 43260, 43200, 43140] ∧
    43140 ∈ assignWindows 43410 300 60 ∧
    43140 ∉ ([43200, 43260, 43320, 43380] : List ℕ) := by
  refine ⟨by decide, by decide, by decide⟩

/-- C4 (amended). With the slide dividing the window length and boundaries
aligned to multiples of the slide, assignWindows maps an event to exactly
the windows whose half-open interval [start, start + L) contains the event
time — the slide-aligned starts with s ≤ t < s + L — and there are
ceil(L/S) = L/S of them; in particular the event at 12:03:30 is assigned
the five windows 11:59, 12:00, 12:01, 12:02, 12:03. -/
theorem assignWindows_correct (t L S w : ℕ) (hS : 0 < S) (hdvd : S ∣ L)
    (ht : L ≤ t) :
    (w ∈ assignWindows t L S ↔ (S ∣ w ∧ w ≤ t ∧ t < w + L)) ∧
    (assignWindows t L S).length = L / S ∧
    assignWindows 43410 300 60 = [43380, 43320, 43260, 43200, 43140] := by
  obtain ⟨m, hm⟩ := hdvd
  have hn : (L + S - 1) / S = m := by
    rw [hm, Nat.add_sub_assoc (Nat.one_le_iff_ne_zero.mpr (Nat.pos_iff_ne_zero.mp hS)),
        Nat.mul_add_div hS]
    have : (S - 1) / S = 0 := Nat.div_eq_of_lt (by omega)
    omega
  have hmod : t / S * S + t % S = t := by
    have h := Nat.div_add_mod t S
    rwa [Nat.mul_comm] at h
  have hmodlt : t % S < S := Nat.mod_lt _ hS
  have hmle : m ≤ t / S := by
    rw [Nat.le_div_iff_mul_le hS]
    calc m * S = S * m := Nat.mul_comm m S
    _ = L := hm.symm
    _ ≤ t := ht
  have hLms : L = m * S := by rw [hm, Nat.mul_comm]
  refine ⟨?_, ?_, by decide⟩
  · unfold assignWindows
    simp only [List.mem_filter, List.mem_map, List.mem_range, hn,
      decide_eq_true_eq]
    constructor
    · rintro ⟨⟨k, hk, hks⟩, hlt⟩
      have hkle : k ≤ t / S := le_trans (Nat.le_of_lt hk) hmle
      have hkS : k * S ≤ t / S * S := Nat.mul_le_mul_right S hkle
      have hsub : (t / S - k) * S = t / S * S - k * S := Nat.sub_mul _ _ _
      refine ⟨⟨t / S - k, ?_⟩, ?_, hlt⟩
      · rw [← hks, ← hsub, Nat.mul_comm]
      · have h1 : t / S * S ≤ t := Nat.div_mul_le_self t S
        omega
    · rintro ⟨⟨j, hj⟩, hwt, hlt⟩
      have hjS : j * S ≤ t := by rw [Nat.mul_comm]; omega
      have hjle : j ≤ t / S := (Nat.le_div_iff_mul_le hS).mpr hjS
      have hdivlt : t / S < j + m := by
        rw [Nat.div_lt_iff_lt_mul hS, Nat.add_mul]
        have : S * j = j * S := Nat.mul_comm S j
        omega
      refine ⟨⟨t / S - j, by omega, ?_⟩, hlt⟩
      have hsub : (t / S - j) * S = t / S * S - j * S := Nat.sub_mul _ _ _
      have hjS2 : j * S ≤ t / S * S := Nat.mul_le_mul_right S hjle
      have : S * j = j * S := Nat.mul_comm S j
      omega
  · unfold assignWindows
    rw [List.filter_eq_self.mpr, List.length_map, List.length_range, hn,
        hm, Nat.mul_div_cancel_left m hS]
    intro a ha
    obtain ⟨k, hk, hks⟩ := List.mem_map.mp ha
    rw [List.mem_range, hn] at hk
    have hkS : k * S ≤ t / S * S :=
      Nat.mul_le_mul_right S (le_trans (Nat.le_of_lt hk) hmle)
    have hkS2 : k * S + S ≤ m * S := by
      have := Nat.mul_le_mul_right S (Nat.succ_le_of_lt hk)
      rw [Nat.succ_mul] at this
      omega
    have h1 : t / S * S ≤ t := Nat.div_mul_le_self t S
    rw [decide_eq_true_eq, ← hks]
    omega

/-- C4 witness: the characterization instantiated at the 12:03:30 event
with the default window configuration. -/
theorem assignWindows_correct_witness :
    (43140 ∈ assignWindows 43410 300 60 ↔
      (60 ∣ 43140 ∧ 43140 ≤ 43410 ∧ 43410 < 43140 + 300)) ∧
    (assignWindows 43410 300 60).length = 300 / 60 ∧
    assignWindows 43410 300 60 = [43380, 43320, 43260, 43200, 43140] :=
  assignWindows_correct 43410 300 60 43140 (by decide) (by decide) (by decide)

/-! ### Order-independence of the aggregate fold (C1) -/

/-- Folding two amounts commutes on an aggregate. -/
lemma foldAgg_comm (a : Agg) (x y : Amount) :
    foldAgg (foldAgg a x) y = foldAgg (foldAgg a y) x := by
  simp only [foldAgg, Agg.mk.injEq, true_and]
  exact ⟨add_right_comm _ _ _, min_right_comm _ _ _, Max.right_comm _ _ _⟩

/-- The accumulation step is right-commutative. -/
lemma aggStep_rcomm (acc : Option Agg) (x y : Amount) :
    aggStep (aggStep acc x) y = aggStep (aggStep acc y) x := by
  cases acc with
  | none =>
      simp only [aggStep, initAgg, foldAgg, Option.some.injEq, Agg.mk.injEq,
        true_and]
      exact ⟨add_comm _ _, min_comm _ _, max_comm _ _⟩
  | some a => simp only [aggStep]; rw [foldAgg_comm]

/-- Folds of permuted amount lists agree from any starting aggregate. -/
lemma foldl_aggStep_perm {l₁ l₂ : List Amount} (h : l₁.Perm l₂) :
    ∀ acc : Option Agg, l₁.foldl aggStep acc = l₂.foldl aggStep acc := by
  induction h with
  | nil => intro acc; rfl
  | cons x _ ih => intro acc; simpa using ih (aggStep acc x)
  | swap x y l => intro acc; simp only [List.foldl]; rw [aggStep_rcomm]
  | trans _ _ ih₁ ih₂ => intro acc; rw [ih₁ acc, ih₂ acc]

/-- C1. The per-window fold over count, sum, min and max is commutative and
associative, so any permutation of the amounts delivered to a window key
yields the identical finalized aggregate. -/
theorem windowAggregate_perm_invariant (l₁ l₂ : List Amount) (h : l₁.Perm l₂) :
    windowAggregate l₁ = windowAggregate l₂ :=
  foldl_aggStep_perm h none

/-- C1 witness: a concrete permutation of the three-amount feed yields the
same aggregate. -/
theorem windowAggregate_perm_invariant_witness :
    ([50, 150000, -20] : List Amount).Perm [-20, 50, 150000] ∧
    windowAggregate [50, 150000, -20] = windowAggregate [-20, 50, 150000] :=
  ⟨by decide, windowAggregate_perm_invariant _ _ (by decide)⟩

/-! ### Alert evaluator (C5, C10) -/

/-- The transaction alert path of the source, abstracted to the spec's
alert names, computes exactly the spec's first-match rule chain. -/
lemma txAlert_abs (e : TxEvent) :
    (txAlert e).map (fun a => abstractTxTy a.alert_type) = specEvaluateTx e := by
  unfold txAlert specEvaluateTx high_value_flag abstractTxTy
  by_cases h1 : alert_thresholds.high_value_transaction < e.amount <;>
    by_cases h2 : e.status = some "FAILED" <;>
      by_cases h3 : e.amount < 0 <;>
        simp [h1, h2, h3]

/-- The remittance alert path of the source, abstracted to the spec's
alert names, computes exactly the spec's first-match rule chain. -/
lemma remAlert_abs (e : RemEvent) :
    (remAlert e).map (fun a => abstractRemTy a.alert_type) = specEvaluateRem e := by
  unfold remAlert specEvaluateRem large_remittance_flag abstractRemTy
  by_cases h1 : alert_thresholds.large_remittance < e.amount <;>
    by_cases h2 : e.status = some "FAILED" <;>
      by_cases h3 : e.amount < 0 <;>
        by_cases h4 : e.exchange_rate = none <;>
          simp [h1, h2, h3, h4, Option.isNone_iff_eq_none]

/-- C5. Alert evaluation is a pure per-event function returning at most one
alert (an Option), equal — under the spec's alert-name abstraction, where
HIGH_VALUE_TRANSACTION reads HIGH_VALUE and FAILED_TRANSACTION and
FAILED_REMITTANCE read FAILED_EVENT — to the spec's first-match rule chain:
high value, then Failed status, then negative amount, then (remittance
only) missing exchange rate; in particular a remittance with absent
exchange_rate and amount 100 yields MISSING_EXCHANGE_RATE, not
LARGE_REMITTANCE. -/
theorem alert_evaluator_first_match :
    (∀ e : TxEvent,
      (txAlert e).map (fun a => abstractTxTy a.alert_type) = specEvaluateTx e) ∧
    (∀ e : RemEvent,
      (remAlert e).map (fun a => abstractRemTy a.alert_type) = specEvaluateRem e) ∧
    (remAlert remNoRate).map (fun a => abstractRemTy a.alert_type) =
      some AlertTy.MISSING_EXCHANGE_RATE :=
  ⟨txAlert_abs, remAlert_abs, by rw [remAlert_abs]; decide⟩

/-- The spec rule chain for transactions never produces the OTHER label. -/
lemma specEvaluateTx_ne_other (e : TxEvent) :
    specEvaluateTx e ≠ some AlertTy.OTHER := by
  unfold specEvaluateTx
  split_ifs <;> simp

/-- The spec rule chain for remittances never produces the OTHER label. -/
lemma specEvaluateRem_ne_other (e : RemEvent) :
    specEvaluateRem e ≠ some AlertTy.OTHER := by
  unfold specEvaluateRem
  split_ifs <;> simp

/-- C10. Every record admitted into an alert stream carries a specific
alert type: the fallback alert type OTHER is unreachable, because the
admission filter guarantees that one branch of the alert-type case
analysis matches. -/
theorem alert_type_never_other :
    (∀ (e : TxEvent) (a : AlertRec), txAlert e = some a →
      a.alert_type ≠ "OTHER") ∧
    (∀ (e : RemEvent) (a : AlertRec), remAlert e = some a →
      a.alert_type ≠ "OTHER") := by
  constructor
  · intro e a h hO
    have habs := txAlert_abs e
    rw [h, Option.map_some', hO] at habs
    have hoth : abstractTxTy "OTHER" = AlertTy.OTHER := by decide
    rw [hoth] at habs
    exact specEvaluateTx_ne_other e habs.symm
  · intro e a h hO
    have habs := remAlert_abs e
    rw [h, Option.map_some', hO] at habs
    have hoth : abstractRemTy "OTHER" = AlertTy.OTHER := by decide
    rw [hoth] at habs
    exact specEvaluateRem_ne_other e habs.symm

/-- C10 witness: the negative-amount transaction's alert carries
NEGATIVE_AMOUNT, not OTHER. -/
theorem alert_type_never_other_witness :
    ({ source_id := "t0", amount := -5, alert_type := "NEGATIVE_AMOUNT" }
      : AlertRec).alert_type ≠ "OTHER" :=
  alert_type_never_other.1 txNeg _ (by decide)

/-! ### Three-event feed (C6) -/

/-- C6. Feeding three events with amounts 50, 150000 and -20 for the same
key within one window yields the aggregate count 3, sum 150030, min -20,
max 150000 — both for the bare fold and for the pipeline state at one of
the event's window keys — and the alert stream for the three events holds
exactly two alerts: HIGH_VALUE for the 150000 event and NEGATIVE_AMOUNT
for the -20 event. -/
theorem three_event_feed_results :
    windowAggregate [50, 150000, -20] =
      some { count := 3, sum := 150030, min := -20, max := 150000 } ∧
    lookupW (run 600 300 60 [Op.ev evA, Op.ev evB, Op.ev evC]).windows
      (960, "US", "PAYMENT") =
      some { count := 3, sum := 150030, min := -20, max := 150000 } ∧
    (txAlertStream [evA, evB, evC]).map
      (fun a => (a.source_id, abstractTxTy a.alert_type)) =
      [("t2", AlertTy.HIGH_VALUE), ("t3", AlertTy.NEGATIVE_AMOUNT)] := by
  refine ⟨?_, ?_, by decide⟩
  · norm_num [windowAggregate, aggStep, initAgg, foldAgg, List.foldl,
      min_def, max_def]
  · norm_num [run, stepOp, processEvent, watermark, accumulate,
      assignWindows, upsert, initAgg, foldAgg, lookupW, initState,
      List.foldl, List.range, min_def, max_def, evA, evB, evC]

/-! ### Late events: dropped from state, alerts unaffected (C7) -/

/-- C7. A valid event whose event time is below the current watermark is
excluded from the aggregate of every not-yet-finalized window (the window
mapping is unchanged) and counted in the dropped-late metric, while the
stateless alert evaluation of the event is untouched: it produces an alert
exactly when its fields match a rule, lateness notwithstanding. -/
theorem late_event_drop (lat L S : ℕ) (s : PState) (e : TxEvent)
    (h : e.transaction_date < watermark lat s) :
    (processEvent lat L S s e).windows = s.windows ∧
    (processEvent lat L S s e).droppedLate = s.droppedLate + 1 ∧
    ((txAlert e).isSome = true ↔
      (alert_thresholds.high_value_transaction < e.amount ∨
       e.status = some "FAILED" ∨ e.amount < 0)) := by
  refine ⟨by simp [processEvent, h], by simp [processEvent, h], ?_⟩
  unfold txAlert high_value_flag
  by_cases h1 : alert_thresholds.high_value_transaction < e.amount <;>
    by_cases h2 : e.status = some "FAILED" <;>
      by_cases h3 : e.amount < 0 <;>
        simp [h1, h2, h3]

/-- C7 witness: the late negative-amount event leaves the window state
unchanged, bumps the dropped-late counter, and still alerts. -/
theorem late_event_drop_witness :
    (processEvent 600 300 60 ⟨10000, [], [], 0⟩ txNeg).windows =
      ([] : List (WKey × Agg)) ∧
    (processEvent 600 300 60 ⟨10000, [], [], 0⟩ txNeg).droppedLate = 0 + 1 ∧
    ((txAlert txNeg).isSome = true ↔
      (alert_thresholds.high_value_transaction < txNeg.amount ∨
       txNeg.status = some "FAILED" ∨ txNeg.amount < 0)) :=
  late_event_drop 600 300 60 ⟨10000, [], [], 0⟩ txNeg (by decide)

/-! ### Validator (C8) -/

/-- C8. Validation rejects a raw record if and only if a required field is
missing, the event time is unparsable, or the amount is non-numeric; every
raw record with those fields present and well-formed is accepted, whatever
the sign of its amount, its sector, or its missing optional fields — those
never appear among the rejection conditions. -/
theorem validate_ok_iff (r : RawRecord) :
    validateOk r = true ↔
      (r.event_id.isSome = true ∧ r.event_type.isSome = true ∧
       (∃ s, r.event_time = some s ∧ (parseTimestampStr s.data).isSome = true) ∧
       (∃ s, r.amount = some s ∧ (parseAmountStr s.data).isSome = true)) := by
  unfold validateOk validate
  cases hid : r.event_id with
  | none => simp
  | some eid =>
    cases hty : r.event_type with
    | none => simp
    | some ety =>
      cases htm : r.event_time with
      | none => simp
      | some ets =>
        cases ham : r.amount with
        | none => simp
        | some ams =>
          cases hpt : parseTimestampStr ets.data with
          | none => simp [hpt]
          | some t =>
            cases hpa : parseAmountStr ams.data with
            | none => simp [hpt, hpa]
            | some a => simp [hpt, hpa]

/-- C8 witness: the record with a negative fractional amount and missing
optional fields is accepted. -/
theorem validate_ok_iff_witness : validateOk rawNeg = true :=
  (validate_ok_iff rawNeg).mpr
    ⟨by decide, by decide, ⟨"1000", rfl, by decide⟩, ⟨"-20.5", rfl, by decide⟩⟩

/-! ### Key normalization (C9) -/

/-- Dropping p-characters skips over a p-prefix. -/
lemma dropWhile_append_all {p : Char → Bool} {a r : List Char}
    (ha : a.all p = true) : (a ++ r).dropWhile p = r.dropWhile p := by
  induction a with
  | nil => rfl
  | cons c t ih =>
      rw [List.all_cons, Bool.and_eq_true] at ha
      rw [List.cons_append, List.dropWhile_cons_of_pos ha.1]
      exact ih ha.2

/-- Dropping p-characters empties an all-p list. -/
lemma dropWhile_all_nil {p : Char → Bool} {a : List Char}
    (ha : a.all p = true) : a.dropWhile p = [] := by
  have h := dropWhile_append_all (r := ([] : List Char)) ha
  simpa using h

/-- Dropping p-characters fixes a list whose head is not a p-character. -/
lemma dropWhile_head_false {p : Char → Bool} {c : List Char}
    (hc : c.head?.all (fun h => !p h) = true) : c.dropWhile p = c := by
  cases c with
  | nil => rfl
  | cons h t =>
      simp only [List.head?_cons, Option.all_some, Bool.not_eq_true'] at hc
      rw [List.dropWhile_cons_of_neg (by simp [hc])]

/-- Trimming strips exactly the space padding around a core that has no
space at either edge. -/
lemma sparkTrim_decompose {a c b : List Char}
    (ha : a.all isSpaceChar = true) (hb : b.all isSpaceChar = true)
    (hh : c.head?.all (fun h => !isSpaceChar h) = true)
    (hl : c.getLast?.all (fun h => !isSpaceChar h) = true) :
    sparkTrim (a ++ c ++ b) = c := by
  unfold sparkTrim
  rw [List.append_assoc, dropWhile_append_all ha]
  cases c with
  | nil =>
      rw [List.nil_append, dropWhile_all_nil hb]
      rfl
  | cons h t =>
      have h1 : List.dropWhile isSpaceChar (h :: (t ++ b)) = h :: (t ++ b) :=
        dropWhile_head_false (by simpa using hh)
      rw [show (h :: t) ++ b = h :: (t ++ b) from rfl, h1,
        show h :: (t ++ b) = (h :: t) ++ b from rfl, List.reverse_append,
        dropWhile_append_all (by simpa using hb),
        dropWhile_head_false (by rw [List.head?_reverse]; exact hl),
        List.reverse_reverse]

/-- Strings that differ only by case and outer spaces normalize (trim then
upper-case) identically. -/
lemma normCode_outer_eq {s₁ s₂ : String}
    (h : OuterEquiv isSpaceChar s₁.data s₂.data) : normCode s₁ = normCode s₂ := by
  obtain ⟨a₁, b₁, a₂, b₂, c₁, c₂, ha₁, hb₁, ha₂, hb₂, hh₁, hl₁, hh₂, hl₂,
    hmap, hs₁, hs₂⟩ := h
  unfold normCode
  rw [hs₁, hs₂, sparkTrim_decompose ha₁ hb₁ hh₁ hl₁,
    sparkTrim_decompose ha₂ hb₂ hh₂ hl₂, hmap]

/-- C9 counterexample. The normalization trims space characters only, not
all whitespace: two events whose country codes differ only by a leading
tab — whitespace, but not a space — are keyed to different window-key
sets, refuting the claim for whitespace at large. -/
theorem key_normalization_ws_counterexample :
    OuterEquiv Char.isWhitespace evTabCC.country_code.data
      evPlainCC.country_code.data ∧
    evTabCC.transaction_type = evPlainCC.transaction_type ∧
    evTabCC.transaction_date = evPlainCC.transaction_date ∧
    txWindowKeys 300 60 (normalizeTx evTabCC) ≠
      txWindowKeys 300 60 (normalizeTx evPlainCC) := by
  refine ⟨⟨['\t'], [], [], [], ['U','S'], ['U','S'], by decide, by decide,
    by decide, by decide, by decide, by decide, by decide, by decide,
    by decide, by decide, by decide⟩, rfl, rfl, by decide⟩

/-- C9 (amended). For every pair of valid events whose code fields differ
only by letter case and/or leading-or-trailing space characters (the
characters the normalization trims) and that agree on event time,
normalization — trim then upper-case before keying — assigns both events
exactly the same set of window keys, so they fold into the same
aggregates. -/
theorem key_normalization_space_equiv (L S : ℕ) (e₁ e₂ : TxEvent)
    (hcc : OuterEquiv isSpaceChar e₁.country_code.data e₂.country_code.data)
    (htt : OuterEquiv isSpaceChar e₁.transaction_type.data
      e₂.transaction_type.data)
    (ht : e₁.transaction_date = e₂.transaction_date) :
    txWindowKeys L S (normalizeTx e₁) = txWindowKeys L S (normalizeTx e₂) := by
  unfold txWindowKeys normalizeTx
  dsimp only
  rw [ht, normCode_outer_eq hcc, normCode_outer_eq htt]

/-- C9 witness: the space-padded lower-case event and its upper-case twin
get identical window keys. -/
theorem key_normalization_space_equiv_witness :
    txWindowKeys 300 60 (normalizeTx evLowerCC) =
      txWindowKeys 300 60 (normalizeTx evUpperCC) :=
  key_normalization_space_equiv 300 60 evLowerCC evUpperCC
    ⟨[' '], [], [], [' '], ['u','s'], ['U','S'], by decide, by decide,
      by decide, by decide, by decide, by decide, by decide, by decide,
      by decide, by decide, by decide⟩
    ⟨[], [], [' '], [], ['p','a','y','m','e','n','t'],
      ['P','A','Y','M','E','N','T'], by decide, by decide, by decide,
      by decide, by decide, by decide, by decide, by decide, by decide,
      by decide, by decide⟩
    rfl

/-! ### Exactly-once emission and eviction (C2) -/

lemma wkeys_cons (k : WKey) (a : Agg) (rest : List (WKey × Agg)) :
    wkeys ((k, a) :: rest) = k :: wkeys rest := rfl

lemma wkeys_append (l₁ l₂ : List (WKey × Agg)) :
    wkeys (l₁ ++ l₂) = wkeys l₁ ++ wkeys l₂ := List.map_append _ _ _

lemma upsert_cons_same (k : WKey) (a₀ : Agg) (rest : List (WKey × Agg))
    (x : Amount) : upsert ((k, a₀) :: rest) k x = (k, foldAgg a₀ x) :: rest := by
  simp [upsert]

lemma upsert_cons_other {k₀ k : WKey} (h : k₀ ≠ k) (a₀ : Agg)
    (rest : List (WKey × Agg)) (x : Amount) :
    upsert ((k₀, a₀) :: rest) k x = (k₀, a₀) :: upsert rest k x := by
  simp [upsert, h]

lemma mem_wkeys_upsert {ws : List (WKey × Agg)} {k k' : WKey} {x : Amount} :
    k' ∈ wkeys (upsert ws k x) ↔ k' ∈ wkeys ws ∨ k' = k := by
  induction ws with
  | nil => simp [upsert, wkeys]
  | cons kv rest ih =>
      obtain ⟨k₀, a₀⟩ := kv
      rcases eq_or_ne k₀ k with rfl | h
      · rw [upsert_cons_same, wkeys_cons, wkeys_cons]
        simp only [List.mem_cons]
        tauto
      · rw [upsert_cons_other h, wkeys_cons, wkeys_cons]
        simp only [List.mem_cons, ih]
        tauto

lemma nodup_wkeys_upsert {ws : List (WKey × Agg)} {k : WKey} {x : Amount}
    (h : (wkeys ws).Nodup) : (wkeys (upsert ws k x)).Nodup := by
  induction ws with
  | nil => simp [upsert, wkeys]
  | cons kv rest ih =>
      obtain ⟨k₀, a₀⟩ := kv
      rw [wkeys_cons, List.nodup_cons] at h
      rcases eq_or_ne k₀ k with rfl | hk
      · rw [upsert_cons_same, wkeys_cons, List.nodup_cons]
        exact h
      · rw [upsert_cons_other hk, wkeys_cons, List.nodup_cons]
        refine ⟨fun hm => ?_, ih h.2⟩
        rcases mem_wkeys_upsert.mp hm with hm' | hm'
        · exact h.1 hm'
        · exact hk hm'

lemma mem_wkeys_foldl_upsert {l : List ℕ} {f : ℕ → WKey} {x : Amount}
    {ws : List (WKey × Agg)} {k' : WKey} :
    k' ∈ wkeys (l.foldl (fun acc w => upsert acc (f w) x) ws) ↔
      k' ∈ wkeys ws ∨ ∃ w ∈ l, k' = f w := by
  induction l generalizing ws with
  | nil => simp
  | cons w rest ih =>
      rw [List.foldl_cons, ih, mem_wkeys_upsert]
      constructor
      · rintro ((h | h) | ⟨w', hw', he⟩)
        · exact .inl h
        · exact .inr ⟨w, List.mem_cons_self .., h⟩
        · exact .inr ⟨w', List.mem_cons_of_mem _ hw', he⟩
      · rintro (h | ⟨w', hw', he⟩)
        · exact .inl (.inl h)
        · rcases List.mem_cons.mp hw' with rfl | hw''
          · exact .inl (.inr he)
          · exact .inr ⟨w', hw'', he⟩

lemma nodup_wkeys_foldl_upsert {l : List ℕ} {f : ℕ → WKey} {x : Amount}
    {ws : List (WKey × Agg)} (h : (wkeys ws).Nodup) :
    (wkeys (l.foldl (fun acc w => upsert acc (f w) x) ws)).Nodup := by
  induction l generalizing ws with
  | nil => exact h
  | cons w rest ih => exact ih (nodup_wkeys_upsert h)

lemma mem_wkeys_accumulate {L S : ℕ} {ws : List (WKey × Agg)} {e : TxEvent}
    {k' : WKey} :
    k' ∈ wkeys (accumulate L S ws e) ↔ k' ∈ wkeys ws ∨
      ∃ w ∈ assignWindows e.transaction_date L S,
        k' = (w, e.country_code, e.transaction_type) := by
  unfold accumulate
  exact mem_wkeys_foldl_upsert

lemma nodup_wkeys_accumulate {L S : ℕ} {ws : List (WKey × Agg)} {e : TxEvent}
    (h : (wkeys ws).Nodup) : (wkeys (accumulate L S ws e)).Nodup := by
  unfold accumulate
  exact nodup_wkeys_foldl_upsert h

lemma entry_unique {ws : List (WKey × Agg)} (hnd : (wkeys ws).Nodup)
    {kv₁ kv₂ : WKey × Agg} (h₁ : kv₁ ∈ ws) (h₂ : kv₂ ∈ ws)
    (hk : kv₁.1 = kv₂.1) : kv₁ = kv₂ := by
  induction ws with
  | nil => cases h₁
  | cons kv rest ih =>
      obtain ⟨k₀, a₀⟩ := kv
      rw [wkeys_cons, List.nodup_cons] at hnd
      rcases List.mem_cons.mp h₁ with rfl | h₁'
      · rcases List.mem_cons.mp h₂ with rfl | h₂'
        · rfl
        · have hm : kv₂.1 ∈ wkeys rest := List.mem_map_of_mem Prod.fst h₂'
          rw [← hk] at hm
          exact absurd hm hnd.1
      · rcases List.mem_cons.mp h₂ with rfl | h₂'
        · have hm : kv₁.1 ∈ wkeys rest := List.mem_map_of_mem Prod.fst h₁'
          rw [hk] at hm
          exact absurd hm hnd.1
        · exact ih hnd.2 h₁' h₂'

lemma inv_processEvent {lat L : ℕ} (S : ℕ) {s : PState} (h : Inv lat L s)
    (e : TxEvent) : Inv lat L (processEvent lat L S s e) := by
  unfold processEvent
  split
  · exact h
  · rename_i hnl
    obtain ⟨h1, h2, h3, h4⟩ := h
    refine ⟨nodup_wkeys_accumulate h1, h2, ?_, ?_⟩
    · intro k hk hmem
      rcases mem_wkeys_accumulate.mp hmem with hm | ⟨w, hw, rfl⟩
      · exact h3 k hk hm
      · have hlt := assignWindows_mem_lt _ _ _ _ hw
        have hle : w + L + lat ≤ watermark lat s := h4 _ hk
        have hnlt := Nat.le_of_not_lt hnl
        unfold watermark at hle hnlt
        omega
    · intro k hk
      have hle := h4 k hk
      unfold watermark at hle ⊢
      dsimp only
      have hmax : s.maxEventTime ≤ max s.maxEventTime e.transaction_date :=
        Nat.le_max_left _ _
      omega

lemma inv_finalizeStep {lat L : ℕ} {s : PState} (h : Inv lat L s) :
    Inv lat L (finalizeStep lat L s) := by
  obtain ⟨h1, h2, h3, h4⟩ := h
  have hfsub : ∀ q : WKey × Agg → Bool,
      List.Sublist (wkeys (s.windows.filter q)) (wkeys s.windows) :=
    fun q => (List.filter_sublist s.windows).map Prod.fst
  have hem : (finalizeStep lat L s).emitted =
      s.emitted ++ s.windows.filter (eligible lat L (watermark lat s)) := rfl
  refine ⟨(hfsub _).nodup h1, ?_, ?_, ?_⟩
  · rw [hem, wkeys_append]
    refine List.Nodup.append h2 ((hfsub _).nodup h1) ?_
    intro k hk hkf
    exact h3 k hk ((hfsub _).subset hkf)
  · intro k hk hmem
    rw [hem, wkeys_append, List.mem_append] at hk
    have hmem' : k ∈ wkeys (s.windows.filter
        (fun kv => !eligible lat L (watermark lat s) kv)) := hmem
    rcases hk with hk | hk
    · exact h3 k hk ((hfsub _).subset hmem')
    · obtain ⟨kv₁, hkv₁, rfl⟩ := List.mem_map.mp hk
      obtain ⟨kv₂, hkv₂, hk2⟩ := List.mem_map.mp hmem'
      have m₁ := List.mem_filter.mp hkv₁
      have m₂ := List.mem_filter.mp hkv₂
      have heq := entry_unique h1 m₂.1 m₁.1 hk2
      rw [heq] at m₂
      rw [m₁.2] at m₂
      simp at m₂
  · intro k hk
    rw [hem, wkeys_append, List.mem_append] at hk
    rcases hk with hk | hk
    · exact h4 k hk
    · obtain ⟨kv, hkv, rfl⟩ := List.mem_map.mp hk
      have helig := (List.mem_filter.mp hkv).2
      unfold eligible at helig
      exact of_decide_eq_true helig

lemma inv_stepOp {lat L : ℕ} (S : ℕ) {s : PState} (h : Inv lat L s) (op : Op) :
    Inv lat L (stepOp lat L S s op) := by
  cases op with
  | ev e => exact inv_processEvent S h e
  | tick => exact inv_finalizeStep h

lemma inv_foldl {lat L S : ℕ} {s : PState} (h : Inv lat L s) (ops : List Op) :
    Inv lat L (ops.foldl (stepOp lat L S) s) := by
  induction ops generalizing s with
  | nil => exact h
  | cons op rest ih => exact ih (inv_stepOp S h op)

lemma inv_initState {lat L : ℕ} : Inv lat L initState := by
  refine ⟨?_, ?_, ?_, ?_⟩ <;> simp [initState, wkeys]

lemma inv_run (lat L S : ℕ) (ops : List Op) : Inv lat L (run lat L S ops) :=
  inv_foldl inv_initState ops

/-- C2. In a failure-free run, every window key whose window end plus the
allowed lateness is at or below the current watermark is emitted to the
sink exactly once — the finalization tick emits each such key (never
zero), the sink log never holds a key twice (never twice) — and the key's
state is removed from the accumulator mapping after emission. -/
theorem window_emitted_exactly_once (lat L S : ℕ) (ops : List Op) :
    (wkeys (run lat L S (ops ++ [Op.tick])).emitted).Nodup ∧
    (∀ kv ∈ (run lat L S ops).windows,
      eligible lat L (watermark lat (run lat L S ops)) kv = true →
      kv ∈ (run lat L S (ops ++ [Op.tick])).emitted) ∧
    (∀ kv ∈ (run lat L S (ops ++ [Op.tick])).emitted,
      kv.1 ∉ wkeys (run lat L S (ops ++ [Op.tick])).windows) := by
  have hr : run lat L S (ops ++ [Op.tick]) =
      finalizeStep lat L (run lat L S ops) := by
    unfold run
    rw [List.foldl_append]
    rfl
  have hinv : Inv lat L (run lat L S (ops ++ [Op.tick])) := inv_run lat L S _
  refine ⟨hinv.2.1, ?_, ?_⟩
  · intro kv hkv helig
    rw [hr]
    exact List.mem_append_right _ (List.mem_filter.mpr ⟨hkv, helig⟩)
  · intro kv hkv
    exact hinv.2.2.1 kv.1 (List.mem_map_of_mem Prod.fst hkv)

/-- C2 witness: after two events and a tick, the first event's closed
window is in the sink log once, the log keys are duplicate-free, and the
key is gone from the mapping. -/
theorem window_emitted_exactly_once_witness :
    (wkeys (run 600 300 60 ([Op.ev evA, Op.ev evD] ++ [Op.tick])).emitted).Nodup ∧
    ((720, "US", "PAYMENT"), { count := 1, sum := 50, min := 50, max := 50 })
      ∈ (run 600 300 60 ([Op.ev evA, Op.ev evD] ++ [Op.tick])).emitted ∧
    ¬ ((720, "US", "PAYMENT") ∈
        wkeys (run 600 300 60 ([Op.ev evA, Op.ev evD] ++ [Op.tick])).windows) :=
  ⟨(window_emitted_exactly_once 600 300 60 [Op.ev evA, Op.ev evD]).1,
   (window_emitted_exactly_once 600 300 60 [Op.ev evA, Op.ev evD]).2.1
     ((720, "US", "PAYMENT"), { count := 1, sum := 50, min := 50, max := 50 })
     (by decide) (by decide),
   (window_emitted_exactly_once 600 300 60 [Op.ev evA, Op.ev evD]).2.2
     ((720, "US", "PAYMENT"), { count := 1, sum := 50, min := 50, max := 50 })
     ((window_emitted_exactly_once 600 300 60 [Op.ev evA, Op.ev evD]).2.1
       ((720, "US", "PAYMENT"), { count := 1, sum := 50, min := 50, max := 50 })
       (by decide) (by decide))⟩

end RegionalBank
